import Mathlib

/-!
Verification of the Connect4 headless engine (`src/connect4/core/game_core.py`).

The Python engine is shallowly embedded: the mutable `Connect4Game` object
becomes an immutable record, and the one mutating operation `drop_piece`
becomes a pure function returning the `MoveResult` together with the updated
state.  Board cells are natural numbers with the source encoding
`0 = empty, 1 = player one, 2 = player two`; the board is a list of rows,
each row a list of cells, row 0 at the top.  Python `int` coordinates are
embedded as `Int` where they can go negative (column arguments, the
direction scan of `_count_dir`) and as `Nat` where the source guarantees
non-negativity (row/column indices of cells actually read or written: every
subscript in the source is guarded by an explicit bounds check, which the
embedding reproduces).  The unbounded `while` loops of `drop_piece` and
`_count_dir` are embedded as structural recursions on an explicit bound:
the gravity scan starts at row `rows - 1` and only decrements, so `rows`
steps suffice exactly as in the source; the direction scan of `_count_dir`
is given `rows + cols + 1` steps of fuel, and the lemma `countDirAux_lt_fuel`
proves that for every direction the source uses the loop stops strictly
before the fuel runs out, so the embedding computes the same count as the
unbounded loop.
-/

/-- Cell value for an empty cell (source constant `EMPTY = 0`). -/
def EMPTY : Nat := 0

/-- Cell value for player one (source constant `P1 = 1`). -/
def P1 : Nat := 1

/-- Cell value for player two (source constant `P2 = 2`). -/
def P2 : Nat := 2

/-- The board: a list of rows, each a list of cells (`self.board`). -/
abbrev Board := List (List Nat)

/-- Read cell `(r, c)`.  The source only ever reads inside the bounds it has
just checked, so the default `EMPTY` for out-of-range indices is never
semantically relevant. -/
def getCellN (b : Board) (r c : Nat) : Nat :=
  (b.getD r []).getD c EMPTY

/-- Write value `v` at cell `(r, c)` (source `self.board[r][col] = ...`). -/
def setCellN (b : Board) (r c : Nat) (v : Nat) : Board :=
  b.set r ((b.getD r []).set c v)

/-- Read cell at `Int` coordinates; used only under `0 ≤ r` / `0 ≤ c` guards,
mirroring the bound checks of `_count_dir`. -/
def getCellI (b : Board) (r c : Int) : Nat :=
  getCellN b r.toNat c.toNat

/-- Board configuration (dataclass `Connect4Config`, default 6×7). -/
structure Connect4Config where
  rows : Int := 6
  cols : Int := 7
deriving DecidableEq, Repr

/-- Validated construction of a config: `__post_init__` raises `ValueError`
iff `rows <= 0 or cols <= 0`. -/
def mkConfig (rows cols : Int) : Except String Connect4Config :=
  if rows ≤ 0 ∨ cols ≤ 0 then
    Except.error "Connect4 board dimensions must be positive."
  else
    Except.ok ⟨rows, cols⟩

/-- Result of a placement attempt (dataclass `MoveResult`). -/
structure MoveResult where
  placed : Bool
  row : Option Nat := none
  col : Option Nat := none
  winner : Nat := 0
  is_draw : Bool := false
deriving DecidableEq, Repr

/-- The engine state (class `Connect4Game`). -/
structure Connect4Game where
  config : Connect4Config
  board : Board
  current_player : Nat
  last_move : Option (Nat × Nat)
  winner : Nat
  is_draw : Bool
deriving DecidableEq, Repr

namespace Connect4Game

/-- Property `rows` (delegates to the config). -/
def rows (g : Connect4Game) : Int := g.config.rows

/-- Property `cols` (delegates to the config). -/
def cols (g : Connect4Game) : Int := g.config.cols

/-- An all-empty board of the configured shape (the list comprehension in
`__init__` / `reset`; Python `range` of a non-positive bound is empty,
matching `Int.toNat`). -/
def emptyBoard (cfg : Connect4Config) : Board :=
  List.replicate cfg.rows.toNat (List.replicate cfg.cols.toNat EMPTY)

/-- Constructor `__init__(config=None)`: `config or Connect4Config()`. -/
def initGame (config : Option Connect4Config) : Connect4Game :=
  let cfg := config.getD {}
  { config := cfg
    board := emptyBoard cfg
    current_player := P1
    last_move := none
    winner := 0
    is_draw := false }

/-- Method `reset(first_player=P1)`. -/
def reset (g : Connect4Game) (first_player : Nat) : Connect4Game :=
  { g with
    board := emptyBoard g.config
    current_player := first_player
    last_move := none
    winner := 0
    is_draw := false }

/-- Method `valid_moves`: `[c for c in range(self.cols) if self.board[0][c] == EMPTY]`. -/
def valid_moves (g : Connect4Game) : List Nat :=
  (List.range g.cols.toNat).filter fun c => decide (getCellN g.board 0 c = EMPTY)

/-- The gravity scan of `drop_piece`:
`r = rows - 1; while r >= 0 and board[r][col] != EMPTY: r -= 1`.
`scanLoop b col (k+1)` is the loop with current row `k`; fuel `0` is `r = -1`,
i.e. the scan ran past the top. -/
def scanLoop (b : Board) (col : Nat) : Nat → Option Nat
  | 0 => none
  | k + 1 => if getCellN b k col ≠ EMPTY then scanLoop b col k else some k

/-- The row a piece dropped in `col` lands in, `none` when the scan runs past
the top (the source's `if r < 0` fallback). -/
def findDropRow (g : Connect4Game) (col : Nat) : Option Nat :=
  scanLoop g.board col g.rows.toNat

/-- The loop body of `_count_dir`:
`while 0 <= rr < rows and 0 <= cc < cols and board[rr][cc] == player: count += 1; rr += dr; cc += dc`.
Fuel-bounded; `countDirAux_lt_fuel` shows the fuel used in `countDir` is
never exhausted for the directions the source uses. -/
def countDirAux (g : Connect4Game) (p : Nat) (dr dc : Int) : Int → Int → Nat → Nat
  | _, _, 0 => 0
  | rr, cc, fuel + 1 =>
    if 0 ≤ rr ∧ rr < g.rows ∧ 0 ≤ cc ∧ cc < g.cols ∧ getCellI g.board rr cc = p then
      countDirAux g p dr dc (rr + dr) (cc + dc) fuel + 1
    else 0

/-- Fuel for the direction scan: strictly more steps than any in-bounds ray
can have cells. -/
def fuel (g : Connect4Game) : Nat := g.rows.toNat + g.cols.toNat + 1

/-- Method `_count_dir(r, c, dr, dc, player)`. -/
def countDir (g : Connect4Game) (r c dr dc : Int) (p : Nat) : Nat :=
  countDirAux g p dr dc r c (fuel g)

/-- The four line directions of `_check_win_from`. -/
def dirs : List (Int × Int) := [(0, 1), (1, 0), (1, 1), (-1, 1)]

/-- Method `_check_win_from(r, c, player)`: some direction has
`count_dir(+d) + count_dir(-d) - 1 >= 4`. -/
def checkWinFrom (g : Connect4Game) (r c : Int) (p : Nat) : Bool :=
  dirs.any fun d =>
    decide (4 ≤ (countDir g r c d.1 d.2 p : Int) + (countDir g r c (-d.1) (-d.2) p : Int) - 1)

/-- The mutation step of `drop_piece` after a row has been found:
`board[r][col] = current_player; last_move = (r, col)`. -/
def placeAt (g : Connect4Game) (r c : Nat) : Connect4Game :=
  { g with
    board := setCellN g.board r c g.current_player
    last_move := some (r, c) }

/-- The terminal-state update of `drop_piece`: win test first, draw test
(`len(valid_moves()) == 0`) only when no win. -/
def judge (g : Connect4Game) (r c : Nat) (mover : Nat) : Connect4Game :=
  if checkWinFrom g r c mover then { g with winner := mover }
  else if (valid_moves g).length = 0 then { g with is_draw := true }
  else g

/-- Turn flip: `P2 if current_player == P1 else P1`. -/
def other (p : Nat) : Nat := if p = P1 then P2 else P1

/-- The success path of `drop_piece` once the landing row `r` of column `c`
is known: place the mark, update the terminal flags, build the result from
the post-move snapshot, then flip the turn only when the game did not just
become terminal. -/
def dropSuccess (g : Connect4Game) (c r : Nat) : MoveResult × Connect4Game :=
  let g2 := judge (placeAt g r c) r c g.current_player
  (⟨true, some r, some c, g2.winner, g2.is_draw⟩,
    if g2.winner = 0 ∧ g2.is_draw = false then
      { g2 with current_player := other g2.current_player }
    else g2)

/-- Method `drop_piece(col)`, returning the `MoveResult` together with the
updated engine state. -/
def drop_piece (g : Connect4Game) (col : Int) : MoveResult × Connect4Game :=
  if g.winner ≠ 0 ∨ g.is_draw then (⟨false, none, none, 0, false⟩, g)
  else if col < 0 ∨ g.cols ≤ col then (⟨false, none, none, 0, false⟩, g)
  else if getCellN g.board 0 col.toNat ≠ EMPTY then (⟨false, none, none, 0, false⟩, g)
  else
    match findDropRow g col.toNat with
    | none => (⟨false, none, none, 0, false⟩, g)
    | some r => dropSuccess g col.toNat r

end Connect4Game

open Connect4Game

/-- States reachable from construction (with a config the validating
constructor accepts, or the default) or from `reset`, by any sequence of
`drop_piece` calls. -/
inductive Reachable : Connect4Game → Prop
  | initDefault : Reachable (initGame none)
  | initCfg (cfg : Connect4Config) (hr : 0 < cfg.rows) (hc : 0 < cfg.cols) :
      Reachable (initGame (some cfg))
  | resetStep (g : Connect4Game) (p : Nat) : Reachable g → Reachable (g.reset p)
  | dropStep (g : Connect4Game) (col : Int) : Reachable g → Reachable (g.drop_piece col).2

/-- The gravity invariant: in every column, a cell being occupied forces every
cell with a greater row index in that column to be occupied. -/
def Gravity (g : Connect4Game) : Prop :=
  ∀ r r' c : Nat, r < r' → r' < g.rows.toNat → c < g.cols.toNat →
    getCellN g.board r c ≠ EMPTY → getCellN g.board r' c ≠ EMPTY

/-- Cell `(r, c)` is inside the board. -/
def inBounds (g : Connect4Game) (r c : Int) : Prop :=
  0 ≤ r ∧ r < g.rows ∧ 0 ≤ c ∧ c < g.cols

/-- The cell `j` steps from `(r, c)` along direction `(dr, dc)` is in bounds
and holds `p`'s mark. -/
def cellQ (g : Connect4Game) (p : Nat) (r c dr dc : Int) (j : Int) : Prop :=
  inBounds g (r + j * dr) (c + j * dc) ∧ getCellI g.board (r + j * dr) (c + j * dc) = p

/-- Cell `(r, c)` lies on a straight line (along one of the four direction
axes) of at least 4 consecutive in-bounds cells all holding `p`'s mark. -/
def hasLine4Through (g : Connect4Game) (r c : Int) (p : Nat) : Prop :=
  ∃ d ∈ dirs, ∃ k : Int, -3 ≤ k ∧ k ≤ 0 ∧
    ∀ j : Int, k ≤ j → j < k + 4 → cellQ g p r c d.1 d.2 j

/-! ### Basic lemmas about cells and board updates -/

theorem getCellN_setCellN_ne (b : Board) (r c v r' c' : Nat) (h : r' ≠ r ∨ c' ≠ c) :
    getCellN (setCellN b r c v) r' c' = getCellN b r' c' := by
  unfold getCellN setCellN
  simp only [List.getD_eq_getElem?_getD, List.getElem?_set]
  rcases eq_or_ne r r' with rfl | hne
  · have hc : c ≠ c' := fun e => by
      rcases h with h | h
      · exact h rfl
      · exact h e.symm
    by_cases hlen : r < b.length
    · simp [hlen, List.getElem?_set, hc]
    · simp [hlen, List.getElem?_eq_none (le_of_not_lt hlen)]
  · simp only [if_neg hne]

theorem getCellN_setCellN_self (b : Board) (r c v : Nat)
    (hr : r < b.length) (hc : c < (b.getD r []).length) :
    getCellN (setCellN b r c v) r c = v := by
  have hc' : c < b[r].length := by
    rwa [List.getD_eq_getElem _ _ hr] at hc
  unfold getCellN setCellN
  simp [List.getD_eq_getElem?_getD, List.getElem?_set, hr, hc']

theorem getCellN_emptyBoard (cfg : Connect4Config) (r c : Nat) :
    getCellN (Connect4Game.emptyBoard cfg) r c = EMPTY := by
  unfold getCellN Connect4Game.emptyBoard
  simp only [List.getD_eq_getElem?_getD, List.getElem?_replicate]
  by_cases hr : r < cfg.rows.toNat
  · simp only [if_pos hr, Option.getD_some]
    by_cases hc : c < cfg.cols.toNat
    · simp [hc]
    · simp [hc]
  · simp [hr]

/-! ### Projection lemmas for the building blocks of `drop_piece` -/

namespace Connect4Game

theorem placeAt_board (g : Connect4Game) (r c : Nat) :
    (placeAt g r c).board = setCellN g.board r c g.current_player := rfl

theorem placeAt_config (g : Connect4Game) (r c : Nat) : (placeAt g r c).config = g.config := rfl

theorem placeAt_current (g : Connect4Game) (r c : Nat) :
    (placeAt g r c).current_player = g.current_player := rfl

theorem placeAt_winner (g : Connect4Game) (r c : Nat) : (placeAt g r c).winner = g.winner := rfl

theorem placeAt_is_draw (g : Connect4Game) (r c : Nat) : (placeAt g r c).is_draw = g.is_draw := rfl

theorem placeAt_last_move (g : Connect4Game) (r c : Nat) :
    (placeAt g r c).last_move = some (r, c) := rfl

theorem judge_board (g : Connect4Game) (r c m : Nat) : (judge g r c m).board = g.board := by
  unfold judge; split
  · rfl
  · split <;> rfl

theorem judge_config (g : Connect4Game) (r c m : Nat) : (judge g r c m).config = g.config := by
  unfold judge; split
  · rfl
  · split <;> rfl

theorem judge_current (g : Connect4Game) (r c m : Nat) :
    (judge g r c m).current_player = g.current_player := by
  unfold judge; split
  · rfl
  · split <;> rfl

theorem judge_last_move (g : Connect4Game) (r c m : Nat) :
    (judge g r c m).last_move = g.last_move := by
  unfold judge; split
  · rfl
  · split <;> rfl

theorem judge_winner (g : Connect4Game) (r c m : Nat) :
    (judge g r c m).winner = if checkWinFrom g r c m then m else g.winner := by
  unfold judge; split
  · simp_all
  · split <;> simp_all

theorem judge_is_draw (g : Connect4Game) (r c m : Nat) :
    (judge g r c m).is_draw =
      if checkWinFrom g r c m then g.is_draw
      else if (valid_moves g).length = 0 then true else g.is_draw := by
  unfold judge; split
  · simp_all
  · split <;> simp_all

theorem dropSuccess_fst (g : Connect4Game) (c r : Nat) :
    (dropSuccess g c r).1 =
      ⟨true, some r, some c, (judge (placeAt g r c) r c g.current_player).winner,
        (judge (placeAt g r c) r c g.current_player).is_draw⟩ := rfl

theorem dropSuccess_snd_board (g : Connect4Game) (c r : Nat) :
    (dropSuccess g c r).2.board = setCellN g.board r c g.current_player := by
  simp only [dropSuccess]
  split <;> simp [judge_board, placeAt_board]

theorem dropSuccess_snd_config (g : Connect4Game) (c r : Nat) :
    (dropSuccess g c r).2.config = g.config := by
  simp only [dropSuccess]
  split <;> simp [judge_config, placeAt_config]

theorem dropSuccess_snd_winner (g : Connect4Game) (c r : Nat) :
    (dropSuccess g c r).2.winner = (judge (placeAt g r c) r c g.current_player).winner := by
  simp only [dropSuccess]
  split <;> rfl

theorem dropSuccess_snd_is_draw (g : Connect4Game) (c r : Nat) :
    (dropSuccess g c r).2.is_draw = (judge (placeAt g r c) r c g.current_player).is_draw := by
  simp only [dropSuccess]
  split <;> rfl

theorem dropSuccess_snd_last_move (g : Connect4Game) (c r : Nat) :
    (dropSuccess g c r).2.last_move = some (r, c) := by
  simp only [dropSuccess]
  split <;> simp [judge_last_move, placeAt_last_move]

end Connect4Game

/-! ### The gravity scan -/

namespace Connect4Game

theorem scanLoop_some (b : Board) (col : Nat) :
    ∀ n r, scanLoop b col n = some r →
      r < n ∧ getCellN b r col = EMPTY ∧
        ∀ r', r < r' → r' < n → getCellN b r' col ≠ EMPTY := by
  intro n
  induction n with
  | zero => intro r h; simp [scanLoop] at h
  | succ k ih =>
    intro r h
    rw [scanLoop] at h
    by_cases hk : getCellN b k col ≠ EMPTY
    · rw [if_pos hk] at h
      obtain ⟨h1, h2, h3⟩ := ih r h
      refine ⟨Nat.lt_succ_of_lt h1, h2, fun r' hlt hlt' => ?_⟩
      rcases Nat.lt_succ_iff_lt_or_eq.mp hlt' with h' | rfl
      · exact h3 r' hlt h'
      · exact hk
    · rw [if_neg hk] at h
      simp only [Option.some.injEq] at h
      subst h
      push_neg at hk
      exact ⟨Nat.lt_succ_self _, hk, fun r' hlt hlt' => absurd hlt' (by omega)⟩

theorem scanLoop_isSome (b : Board) (col : Nat) (h0 : getCellN b 0 col = EMPTY) :
    ∀ n, 0 < n → ∃ r, scanLoop b col n = some r := by
  intro n
  induction n with
  | zero => intro h; omega
  | succ k ih =>
    intro _
    rw [scanLoop]
    by_cases hk : getCellN b k col ≠ EMPTY
    · rw [if_pos hk]
      rcases Nat.eq_zero_or_pos k with rfl | hpos
      · exact absurd h0 hk
      · exact ih hpos
    · rw [if_neg hk]
      exact ⟨k, rfl⟩

/-! ### Case analysis of `drop_piece` -/

theorem dropSuccess_fst_placed (g : Connect4Game) (c r : Nat) :
    (dropSuccess g c r).1.placed = true := by
  rw [dropSuccess_fst]

theorem drop_piece_eq_success (g : Connect4Game) (col : Int) (r : Nat)
    (hw : g.winner = 0) (hd : g.is_draw = false)
    (hc0 : 0 ≤ col) (hc1 : col < g.cols)
    (htop : getCellN g.board 0 col.toNat = EMPTY)
    (hr : findDropRow g col.toNat = some r) :
    drop_piece g col = dropSuccess g col.toNat r := by
  unfold drop_piece
  rw [if_neg (by simp [hw, hd]), if_neg (by omega), if_neg (by simp [htop]), hr]

theorem drop_shape (g : Connect4Game) (col : Int) :
    drop_piece g col = (⟨false, none, none, 0, false⟩, g) ∨
    ∃ r, findDropRow g col.toNat = some r ∧ g.winner = 0 ∧ g.is_draw = false ∧
      0 ≤ col ∧ col < g.cols ∧ getCellN g.board 0 col.toNat = EMPTY ∧
      drop_piece g col = dropSuccess g col.toNat r := by
  unfold drop_piece
  split
  · exact Or.inl rfl
  rename_i h1
  split
  · exact Or.inl rfl
  rename_i h2
  split
  · exact Or.inl rfl
  rename_i h3
  split
  · exact Or.inl rfl
  rename_i r hr
  simp only [not_or, ne_eq, not_not, Bool.not_eq_true] at h1
  simp only [not_or, not_lt, not_le] at h2
  simp only [ne_eq, not_not] at h3
  exact Or.inr ⟨r, hr, h1.1, h1.2, h2.1, h2.2, h3, rfl⟩

end Connect4Game

/-! ### Characterisation of the direction scan `_count_dir` -/

theorem cellQ_succ (g : Connect4Game) (p : Nat) (r c dr dc : Int) (j : Int) :
    cellQ g p (r + dr) (c + dc) dr dc j ↔ cellQ g p r c dr dc (j + 1) := by
  unfold cellQ
  rw [show r + dr + j * dr = r + (j + 1) * dr by ring,
    show c + dc + j * dc = c + (j + 1) * dc by ring]

theorem cellQ_neg (g : Connect4Game) (p : Nat) (r c dr dc : Int) (j : Int) :
    cellQ g p r c (-dr) (-dc) j ↔ cellQ g p r c dr dc (-j) := by
  unfold cellQ
  rw [show r + j * -dr = r + -j * dr by ring, show c + j * -dc = c + -j * dc by ring]

theorem countDirAux_mem (g : Connect4Game) (p : Nat) (dr dc : Int) :
    ∀ (n : Nat) (rr cc : Int) (i : Nat),
      i < Connect4Game.countDirAux g p dr dc rr cc n → cellQ g p rr cc dr dc i := by
  intro n
  induction n with
  | zero => intro rr cc i h; simp [Connect4Game.countDirAux] at h
  | succ k ih =>
    intro rr cc i h
    rw [Connect4Game.countDirAux] at h
    by_cases hcond : 0 ≤ rr ∧ rr < g.rows ∧ 0 ≤ cc ∧ cc < g.cols ∧ getCellI g.board rr cc = p
    · rw [if_pos hcond] at h
      match i with
      | 0 =>
        simp only [Nat.cast_zero, cellQ, inBounds, zero_mul, add_zero]
        exact ⟨⟨hcond.1, hcond.2.1, hcond.2.2.1, hcond.2.2.2.1⟩, hcond.2.2.2.2⟩
      | i + 1 =>
        have hi := ih (rr + dr) (cc + dc) i (by omega)
        rw [cellQ_succ] at hi
        have he : ((i + 1 : Nat) : Int) = (i : Int) + 1 := by push_cast; ring
        rwa [he]
    · rw [if_neg hcond] at h
      omega

theorem countDirAux_stop (g : Connect4Game) (p : Nat) (dr dc : Int) :
    ∀ (n : Nat) (rr cc : Int),
      Connect4Game.countDirAux g p dr dc rr cc n < n →
      ¬ cellQ g p rr cc dr dc (Connect4Game.countDirAux g p dr dc rr cc n) := by
  intro n
  induction n with
  | zero => intro rr cc h; omega
  | succ k ih =>
    intro rr cc h
    rw [Connect4Game.countDirAux] at h ⊢
    by_cases hcond : 0 ≤ rr ∧ rr < g.rows ∧ 0 ≤ cc ∧ cc < g.cols ∧ getCellI g.board rr cc = p
    · rw [if_pos hcond] at h ⊢
      have hlt : Connect4Game.countDirAux g p dr dc (rr + dr) (cc + dc) k < k := by omega
      have hnot := ih (rr + dr) (cc + dc) hlt
      have he : ((Connect4Game.countDirAux g p dr dc (rr + dr) (cc + dc) k + 1 : Nat) : Int)
          = (Connect4Game.countDirAux g p dr dc (rr + dr) (cc + dc) k : Int) + 1 := by
        push_cast; ring
      rw [he, ← cellQ_succ]
      exact hnot
    · rw [if_neg hcond] at h ⊢
      simp only [Nat.cast_zero]
      intro hq
      unfold cellQ inBounds at hq
      rw [zero_mul, add_zero, zero_mul, add_zero] at hq
      exact hcond ⟨hq.1.1, hq.1.2.1, hq.1.2.2.1, hq.1.2.2.2, hq.2⟩

theorem countDirAux_bound (g : Connect4Game) (p : Nat) (dr dc : Int) (rr cc : Int) (n : Nat)
    (h : dr = 1 ∨ dr = -1 ∨ dc = 1 ∨ dc = -1) :
    Connect4Game.countDirAux g p dr dc rr cc n ≤ g.rows.toNat + g.cols.toNat := by
  rcases Nat.eq_zero_or_pos (Connect4Game.countDirAux g p dr dc rr cc n) with h0 | hpos
  · omega
  · have q0 := countDirAux_mem g p dr dc n rr cc 0 hpos
    have qlast := countDirAux_mem g p dr dc n rr cc
      (Connect4Game.countDirAux g p dr dc rr cc n - 1) (by omega)
    simp only [cellQ, inBounds, Nat.cast_zero, zero_mul, add_zero] at q0 qlast
    obtain ⟨⟨hr0, hr1, hc0, hc1⟩, -⟩ := q0
    obtain ⟨⟨hb0, hb1, hb2, hb3⟩, -⟩ := qlast
    rcases h with rfl | rfl | rfl | rfl
    · rw [mul_one] at hb0 hb1
      omega
    · rw [mul_neg_one] at hb0 hb1
      omega
    · rw [mul_one] at hb2 hb3
      omega
    · rw [mul_neg_one] at hb2 hb3
      omega

/-- Abstract run-length argument: if `Q` holds on the maximal forward run
`[0, n)` and the maximal backward run `(-m, 0]`, then the directional total
`n + m - 1` reaches 4 exactly when some 4-window through position 0 lies
entirely inside the run. -/
theorem run_window (Q : Int → Prop) (n m : Nat)
    (hf : ∀ i : Nat, i < n → Q i) (hfs : ¬ Q (n : Int))
    (hb : ∀ i : Nat, i < m → Q (-(i : Int))) (hbs : ¬ Q (-(m : Int))) :
    4 ≤ (n : Int) + (m : Int) - 1 ↔
      ∃ k : Int, -3 ≤ k ∧ k ≤ 0 ∧ ∀ j : Int, k ≤ j → j < k + 4 → Q j := by
  constructor
  · intro h
    have hn : 1 ≤ n := by
      rcases Nat.eq_zero_or_pos n with h0 | h0
      · exfalso
        rcases Nat.eq_zero_or_pos m with h1 | h1
        · omega
        · have hq := hb 0 h1
          rw [h0] at hfs
          simp only [Nat.cast_zero, neg_zero] at hq hfs
          exact hfs hq
      · exact h0
    have hm : 1 ≤ m := by
      rcases Nat.eq_zero_or_pos m with h1 | h1
      · exfalso
        have hq := hf 0 hn
        rw [h1] at hbs
        simp only [Nat.cast_zero, neg_zero] at hq hbs
        exact hbs hq
      · exact h1
    have hrun : ∀ j : Int, -(m : Int) < j → j < (n : Int) → Q j := by
      intro j hj1 hj2
      rcases le_or_lt 0 j with hj | hj
      · have hq := hf j.toNat (by omega)
        rwa [Int.toNat_of_nonneg hj] at hq
      · have hq := hb (-j).toNat (by omega)
        rwa [Int.toNat_of_nonneg (by omega : (0 : Int) ≤ -j), neg_neg] at hq
    by_cases h4 : 4 ≤ (n : Int)
    · exact ⟨0, by norm_num, le_refl 0, fun j hj1 hj2 => hrun j (by omega) (by omega)⟩
    · exact ⟨(n : Int) - 4, by omega, by omega, fun j hj1 hj2 => hrun j (by omega) (by omega)⟩
  · rintro ⟨k, hk1, hk2, hw⟩
    have hn : k + 4 ≤ (n : Int) := by
      by_contra h0
      exact hfs (hw (n : Int) (by omega) (by omega))
    have hm : 1 - k ≤ (m : Int) := by
      by_contra h0
      exact hbs (hw (-(m : Int)) (by omega) (by omega))
    omega

theorem countDir_lt_fuel (g : Connect4Game) (r c : Int) (p : Nat) (dr dc : Int)
    (h : dr = 1 ∨ dr = -1 ∨ dc = 1 ∨ dc = -1) :
    Connect4Game.countDir g r c dr dc p < Connect4Game.fuel g := by
  have hb := countDirAux_bound g p dr dc r c (Connect4Game.fuel g) h
  unfold Connect4Game.countDir Connect4Game.fuel
  unfold Connect4Game.fuel at hb
  omega

theorem countDir_pair_iff_window (g : Connect4Game) (r c : Int) (p : Nat) (dr dc : Int)
    (h : dr = 1 ∨ dr = -1 ∨ dc = 1 ∨ dc = -1) :
    (4 ≤ (Connect4Game.countDir g r c dr dc p : Int) +
        (Connect4Game.countDir g r c (-dr) (-dc) p : Int) - 1) ↔
      ∃ k : Int, -3 ≤ k ∧ k ≤ 0 ∧ ∀ j : Int, k ≤ j → j < k + 4 → cellQ g p r c dr dc j := by
  have h' : -dr = 1 ∨ -dr = -1 ∨ -dc = 1 ∨ -dc = -1 := by
    rcases h with rfl | rfl | rfl | rfl <;> simp
  refine run_window (cellQ g p r c dr dc)
    (Connect4Game.countDir g r c dr dc p) (Connect4Game.countDir g r c (-dr) (-dc) p)
    ?_ ?_ ?_ ?_
  · intro i hi
    exact countDirAux_mem g p dr dc (Connect4Game.fuel g) r c i hi
  · exact countDirAux_stop g p dr dc (Connect4Game.fuel g) r c (countDir_lt_fuel g r c p dr dc h)
  · intro i hi
    have hq := countDirAux_mem g p (-dr) (-dc) (Connect4Game.fuel g) r c i hi
    rwa [cellQ_neg] at hq
  · have hq := countDirAux_stop g p (-dr) (-dc) (Connect4Game.fuel g) r c
      (countDir_lt_fuel g r c p (-dr) (-dc) h')
    rw [cellQ_neg] at hq
    exact hq

theorem checkWinFrom_iff_line4 (g : Connect4Game) (r c : Int) (p : Nat) :
    Connect4Game.checkWinFrom g r c p = true ↔ hasLine4Through g r c p := by
  unfold Connect4Game.checkWinFrom hasLine4Through
  rw [List.any_eq_true]
  constructor
  · rintro ⟨d, hd, hcount⟩
    rw [decide_eq_true_eq] at hcount
    refine ⟨d, hd, ?_⟩
    have hdir : d.1 = 1 ∨ d.1 = -1 ∨ d.2 = 1 ∨ d.2 = -1 := by
      simp only [Connect4Game.dirs, List.mem_cons, List.not_mem_nil, or_false] at hd
      rcases hd with rfl | rfl | rfl | rfl <;> simp
    exact (countDir_pair_iff_window g r c p d.1 d.2 hdir).mp hcount
  · rintro ⟨d, hd, k, hk⟩
    have hdir : d.1 = 1 ∨ d.1 = -1 ∨ d.2 = 1 ∨ d.2 = -1 := by
      simp only [Connect4Game.dirs, List.mem_cons, List.not_mem_nil, or_false] at hd
      rcases hd with rfl | rfl | rfl | rfl <;> simp
    refine ⟨d, hd, ?_⟩
    rw [decide_eq_true_eq]
    exact (countDir_pair_iff_window g r c p d.1 d.2 hdir).mpr ⟨k, hk⟩

/-! ### Preservation of the gravity invariant -/

theorem gravity_set (b : Board) (R C : Nat) (r c v : Nat)
    (hg : ∀ a a' c' : Nat, a < a' → a' < R → c' < C →
      getCellN b a c' ≠ EMPTY → getCellN b a' c' ≠ EMPTY)
    (hrR : r < R) (hcC : c < C)
    (hempty : getCellN b r c = EMPTY)
    (hbelow : ∀ r', r < r' → r' < R → getCellN b r' c ≠ EMPTY) :
    ∀ a a' c' : Nat, a < a' → a' < R → c' < C →
      getCellN (setCellN b r c v) a c' ≠ EMPTY →
      getCellN (setCellN b r c v) a' c' ≠ EMPTY := by
  intro a a' c' haa haR hcC' hocc
  by_cases hcc : c' = c
  · subst hcc
    by_cases ha : a = r
    · subst ha
      rw [getCellN_setCellN_ne b a c' v a' c' (Or.inl (by omega))]
      exact hbelow a' haa haR
    · have hocc' : getCellN b a c' ≠ EMPTY := by
        rwa [getCellN_setCellN_ne b r c' v a c' (Or.inl ha)] at hocc
      by_cases ha' : a' = r
      · subst ha'
        exact absurd hempty (hg a a' c' haa haR hcC' hocc')
      · rw [getCellN_setCellN_ne b r c' v a' c' (Or.inl ha')]
        exact hg a a' c' haa haR hcC' hocc'
  · have hocc' : getCellN b a c' ≠ EMPTY := by
      rwa [getCellN_setCellN_ne b r c v a c' (Or.inr hcc)] at hocc
    rw [getCellN_setCellN_ne b r c v a' c' (Or.inr hcc)]
    exact hg a a' c' haa haR hcC' hocc'

theorem rows_dropSuccess (g : Connect4Game) (c r : Nat) :
    (Connect4Game.dropSuccess g c r).2.rows = g.rows := by
  unfold Connect4Game.rows
  rw [Connect4Game.dropSuccess_snd_config]

theorem cols_dropSuccess (g : Connect4Game) (c r : Nat) :
    (Connect4Game.dropSuccess g c r).2.cols = g.cols := by
  unfold Connect4Game.cols
  rw [Connect4Game.dropSuccess_snd_config]

theorem drop_preserves_gravity (g : Connect4Game) (col : Int) (hg : Gravity g) :
    Gravity (g.drop_piece col).2 := by
  rcases Connect4Game.drop_shape g col with he | ⟨r, hr, hw, hd, hc0, hc1, htop, he⟩
  · rw [he]
    exact hg
  · rw [he]
    unfold Gravity
    simp only [rows_dropSuccess, cols_dropSuccess, Connect4Game.dropSuccess_snd_board]
    obtain ⟨hrlt, hempty, hbelow⟩ :=
      Connect4Game.scanLoop_some g.board col.toNat g.rows.toNat r hr
    exact gravity_set g.board g.rows.toNat g.cols.toNat r col.toNat g.current_player
      hg hrlt (by omega) hempty hbelow

/-! ### Claim theorems -/

/-- C5: for every state and every integer column (negative, too large, full
column, or a call after the game is terminal), `drop_piece` returns a
`MoveResult` (it is a total function of the embedding by construction, as
the source never indexes out of bounds and never raises past construction),
and whenever the returned result has `placed = false` the entire engine
state — board, current player, last move, winner and draw flag — is exactly
unchanged. -/
theorem c5_drop_piece_failure_leaves_state_unchanged (g : Connect4Game) (col : Int)
    (h : (g.drop_piece col).1.placed = false) :
    (g.drop_piece col).2 = g := by
  rcases Connect4Game.drop_shape g col with he | ⟨r, hr, hw, hd, hc0, hc1, htop, he⟩
  · rw [he]
  · rw [he, Connect4Game.dropSuccess_fst_placed] at h
    exact absurd h (by simp)

/-- C5 witness: an out-of-range drop on the fresh default board leaves the
state unchanged. -/
theorem c5_witness :
    ((Connect4Game.initGame none).drop_piece 7).2 = Connect4Game.initGame none :=
  c5_drop_piece_failure_leaves_state_unchanged (Connect4Game.initGame none) 7 (by decide)

/-- C9: every unsuccessful `drop_piece` call returns the all-default
`MoveResult` — `placed = false`, `row = none`, `col = none`, `winner = 0`,
`is_draw = false` — even when the engine state already records a winner or a
draw, so the actual outcome is not observable from a failed result. -/
theorem c9_failed_move_result_is_default (g : Connect4Game) (col : Int)
    (h : (g.drop_piece col).1.placed = false) :
    (g.drop_piece col).1 =
      { placed := false, row := none, col := none, winner := 0, is_draw := false } := by
  rcases Connect4Game.drop_shape g col with he | ⟨r, hr, hw, hd, hc0, hc1, htop, he⟩
  · rw [he]
  · rw [he, Connect4Game.dropSuccess_fst_placed] at h
    exact absurd h (by simp)

/-- C9 witness: on a state whose `winner` field records player one, a fresh
drop returns the default result, whose `winner` field is `0`. -/
theorem c9_witness :
    ((Connect4Game.mk {} (Connect4Game.emptyBoard {}) P2 (some (5, 0)) P1 false).drop_piece 0).1 =
      { placed := false, row := none, col := none, winner := 0, is_draw := false } :=
  c9_failed_move_result_is_default
    (Connect4Game.mk {} (Connect4Game.emptyBoard {}) P2 (some (5, 0)) P1 false) 0 (by decide)

/-- C10: the `r < 0` fallback of `drop_piece` is unreachable: whenever the
board has at least one row and the already-passed guard `board[0][col] ==
EMPTY` holds, the bottom-up gravity scan stops at some row `r` with
`0 ≤ r < rows`. -/
theorem c10_scan_fallback_unreachable (g : Connect4Game) (col : Int)
    (hrows : 0 < g.rows)
    (htop : getCellN g.board 0 col.toNat = EMPTY) :
    ∃ r : Nat, Connect4Game.findDropRow g col.toNat = some r ∧ r < g.rows.toNat := by
  obtain ⟨r, hr⟩ :=
    Connect4Game.scanLoop_isSome g.board col.toNat htop g.rows.toNat (by omega)
  obtain ⟨hlt, -, -⟩ := Connect4Game.scanLoop_some g.board col.toNat g.rows.toNat r hr
  exact ⟨r, hr, hlt⟩

/-- C10 witness: on the fresh default board the scan of column 3 lands in
bounds. -/
theorem c10_witness :
    ∃ r : Nat, Connect4Game.findDropRow (Connect4Game.initGame none) 3 = some r ∧
      r < (Connect4Game.initGame none).rows.toNat :=
  c10_scan_fallback_unreachable (Connect4Game.initGame none) 3 (by decide) (by decide)

/-- C8: `valid_moves` returns exactly the columns `c` with `0 ≤ c < cols`
whose top cell is empty, in strictly ascending order (the membership bound
is the `Nat` encoding of `0 ≤ c < cols`).  It is a pure function of the
state in this embedding, so the claimed idempotence — two calls with no
intervening `drop_piece` agree — is structural. -/
theorem c8_valid_moves_spec (g : Connect4Game) :
    (∀ c : Nat, c ∈ g.valid_moves ↔ c < g.cols.toNat ∧ getCellN g.board 0 c = EMPTY) ∧
    List.Sorted (· < ·) g.valid_moves := by
  constructor
  · intro c
    simp [Connect4Game.valid_moves, List.mem_filter, List.mem_range]
  · exact (List.sorted_lt_range _).filter _

/-- C8 witness: after one drop into column 3 of a one-row board, column 3
leaves `valid_moves` while column 0 stays. -/
theorem c8_witness :
    (3 ∈ ((Connect4Game.initGame (some ⟨1, 7⟩)).drop_piece 3).2.valid_moves ↔
        3 < ((Connect4Game.initGame (some ⟨1, 7⟩)).drop_piece 3).2.cols.toNat ∧
          getCellN ((Connect4Game.initGame (some ⟨1, 7⟩)).drop_piece 3).2.board 0 3 = EMPTY) ∧
    List.Sorted (· < ·) ((Connect4Game.initGame (some ⟨1, 7⟩)).drop_piece 3).2.valid_moves :=
  ⟨(c8_valid_moves_spec ((Connect4Game.initGame (some ⟨1, 7⟩)).drop_piece 3).2).1 3,
    (c8_valid_moves_spec ((Connect4Game.initGame (some ⟨1, 7⟩)).drop_piece 3).2).2⟩

/-- C7: config construction fails exactly when a dimension is non-positive;
with both dimensions positive (and for the default 6×7 when no config is
given) construction succeeds and yields an all-empty `rows × cols` board,
`current_player = P1`, no last move, no winner and no draw. -/
theorem c7_construction_spec :
    (∀ rows cols : Int, (∃ e, mkConfig rows cols = Except.error e) ↔ rows ≤ 0 ∨ cols ≤ 0) ∧
    (∀ rows cols : Int, 0 < rows ∧ 0 < cols →
      mkConfig rows cols = Except.ok ⟨rows, cols⟩) ∧
    (∀ cfg : Connect4Config,
      (Connect4Game.initGame (some cfg)).board.length = cfg.rows.toNat ∧
      (∀ row ∈ (Connect4Game.initGame (some cfg)).board,
        row.length = cfg.cols.toNat ∧ ∀ x ∈ row, x = EMPTY) ∧
      (Connect4Game.initGame (some cfg)).current_player = P1 ∧
      (Connect4Game.initGame (some cfg)).last_move = none ∧
      (Connect4Game.initGame (some cfg)).winner = 0 ∧
      (Connect4Game.initGame (some cfg)).is_draw = false) ∧
    Connect4Game.initGame none = Connect4Game.initGame (some ⟨6, 7⟩) := by
  refine ⟨fun rows cols => ?_, fun rows cols h => ?_, fun cfg => ?_, rfl⟩
  · unfold mkConfig
    by_cases hc : rows ≤ 0 ∨ cols ≤ 0
    · simp [hc]
    · simp [hc]
  · unfold mkConfig
    rw [if_neg (by omega)]
  · refine ⟨by simp [Connect4Game.initGame, Connect4Game.emptyBoard], ?_, rfl, rfl, rfl, rfl⟩
    intro row hrow
    have hrow' : row ∈ Connect4Game.emptyBoard cfg := hrow
    unfold Connect4Game.emptyBoard at hrow'
    obtain ⟨-, rfl⟩ := List.mem_replicate.mp hrow'
    exact ⟨by simp, fun x hx => (List.mem_replicate.mp hx).2⟩

/-- C7 witness: the concrete instances at the default shape and at an
invalid shape. -/
theorem c7_witness :
    ((∃ e, mkConfig 0 7 = Except.error e) ↔ (0 : Int) ≤ 0 ∨ (7 : Int) ≤ 0) ∧
    mkConfig 6 7 = Except.ok ⟨6, 7⟩ ∧
    (Connect4Game.initGame (some ⟨6, 7⟩)).board.length = (6 : Int).toNat :=
  ⟨(c7_construction_spec.1 0 7),
    c7_construction_spec.2.1 6 7 (by decide),
    (c7_construction_spec.2.2.1 ⟨6, 7⟩).1⟩

/-- C1: in a non-terminal state, for a column in range whose top cell is
empty, `drop_piece` writes the current player's mark at the lowest
unoccupied row `r` of that column — the row that is empty while every row
below it in the column is occupied — records `(r, col)` as `last_move`, and
returns `placed = true` with that row and column and the post-move
winner/draw snapshot. -/
theorem c1_drop_places_at_lowest_empty (g : Connect4Game) (col : Int)
    (hw : g.winner = 0) (hd : g.is_draw = false)
    (hrows : 0 < g.rows)
    (hc0 : 0 ≤ col) (hc1 : col < g.cols)
    (htop : getCellN g.board 0 col.toNat = EMPTY) :
    ∃ r : Nat, r < g.rows.toNat ∧ getCellN g.board r col.toNat = EMPTY ∧
      (∀ r' : Nat, r < r' → r' < g.rows.toNat → getCellN g.board r' col.toNat ≠ EMPTY) ∧
      (g.drop_piece col).2.board = setCellN g.board r col.toNat g.current_player ∧
      (g.drop_piece col).2.last_move = some (r, col.toNat) ∧
      (g.drop_piece col).1.placed = true ∧
      (g.drop_piece col).1.row = some r ∧
      (g.drop_piece col).1.col = some col.toNat ∧
      (g.drop_piece col).1.winner = (g.drop_piece col).2.winner ∧
      (g.drop_piece col).1.is_draw = (g.drop_piece col).2.is_draw := by
  obtain ⟨r, hr⟩ :=
    Connect4Game.scanLoop_isSome g.board col.toNat htop g.rows.toNat (by omega)
  obtain ⟨hlt, hempty, hbelow⟩ := Connect4Game.scanLoop_some g.board col.toNat g.rows.toNat r hr
  have he := Connect4Game.drop_piece_eq_success g col r hw hd hc0 hc1 htop hr
  rw [he]
  refine ⟨r, hlt, hempty, hbelow, Connect4Game.dropSuccess_snd_board g col.toNat r,
    Connect4Game.dropSuccess_snd_last_move g col.toNat r,
    Connect4Game.dropSuccess_fst_placed g col.toNat r, ?_, ?_, ?_, ?_⟩
  · rw [Connect4Game.dropSuccess_fst]
  · rw [Connect4Game.dropSuccess_fst]
  · rw [Connect4Game.dropSuccess_fst, Connect4Game.dropSuccess_snd_winner]
  · rw [Connect4Game.dropSuccess_fst, Connect4Game.dropSuccess_snd_is_draw]

/-- C1 witness: dropping into column 3 of the fresh default board. -/
theorem c1_witness :
    ∃ r : Nat, r < (Connect4Game.initGame none).rows.toNat ∧
      getCellN (Connect4Game.initGame none).board r (3 : Int).toNat = EMPTY ∧
      (∀ r' : Nat, r < r' → r' < (Connect4Game.initGame none).rows.toNat →
        getCellN (Connect4Game.initGame none).board r' (3 : Int).toNat ≠ EMPTY) ∧
      ((Connect4Game.initGame none).drop_piece 3).2.board =
        setCellN (Connect4Game.initGame none).board r (3 : Int).toNat
          (Connect4Game.initGame none).current_player ∧
      ((Connect4Game.initGame none).drop_piece 3).2.last_move = some (r, (3 : Int).toNat) ∧
      ((Connect4Game.initGame none).drop_piece 3).1.placed = true ∧
      ((Connect4Game.initGame none).drop_piece 3).1.row = some r ∧
      ((Connect4Game.initGame none).drop_piece 3).1.col = some (3 : Int).toNat ∧
      ((Connect4Game.initGame none).drop_piece 3).1.winner =
        ((Connect4Game.initGame none).drop_piece 3).2.winner ∧
      ((Connect4Game.initGame none).drop_piece 3).1.is_draw =
        ((Connect4Game.initGame none).drop_piece 3).2.is_draw :=
  c1_drop_places_at_lowest_empty (Connect4Game.initGame none) 3 rfl rfl (by decide)
    (by decide) (by decide) (by decide)

/-- C4: after a successful placement, the current player is flipped to the
other player exactly when the game did not just become terminal, and is
left at the mover when it did. -/
theorem c4_turn_alternation (g : Connect4Game) (col : Int)
    (h : (g.drop_piece col).1.placed = true) :
    ((g.drop_piece col).2.winner = 0 ∧ (g.drop_piece col).2.is_draw = false →
      (g.drop_piece col).2.current_player = Connect4Game.other g.current_player) ∧
    ((g.drop_piece col).2.winner ≠ 0 ∨ (g.drop_piece col).2.is_draw = true →
      (g.drop_piece col).2.current_player = g.current_player) := by
  rcases Connect4Game.drop_shape g col with he | ⟨r, hr, hw, hd, hc0, hc1, htop, he⟩
  · rw [he] at h
    simp at h
  · rw [he]
    simp only [Connect4Game.dropSuccess]
    split
    · refine ⟨fun _ => ?_, fun hcon => ?_⟩
      · simp [Connect4Game.judge_current, Connect4Game.placeAt_current]
      · rename_i hterm
        exfalso
        rcases hcon with hcon | hcon
        · exact hcon (by simpa using hterm.1)
        · simp [hterm.2] at hcon
    · rename_i hterm
      refine ⟨fun h0 => absurd h0 hterm, fun _ => ?_⟩
      simp [Connect4Game.judge_current, Connect4Game.placeAt_current]

/-- C4 witness: the first drop on the fresh default board is non-terminal
and flips the turn from player one to player two. -/
theorem c4_witness :
    (((Connect4Game.initGame none).drop_piece 0).2.winner = 0 ∧
        ((Connect4Game.initGame none).drop_piece 0).2.is_draw = false →
      ((Connect4Game.initGame none).drop_piece 0).2.current_player =
        Connect4Game.other (Connect4Game.initGame none).current_player) ∧
    (((Connect4Game.initGame none).drop_piece 0).2.winner ≠ 0 ∨
        ((Connect4Game.initGame none).drop_piece 0).2.is_draw = true →
      ((Connect4Game.initGame none).drop_piece 0).2.current_player =
        (Connect4Game.initGame none).current_player) :=
  c4_turn_alternation (Connect4Game.initGame none) 0 (by decide)

/-- C6: every state reachable from construction or `reset` by any sequence
of `drop_piece` calls satisfies the gravity invariant: an occupied cell has
every cell with a greater row index in its column occupied as well. -/
theorem c6_reachable_gravity (g : Connect4Game) (h : Reachable g) : Gravity g := by
  induction h with
  | initDefault =>
    intro a a' c' _ _ _ hocc
    exact absurd (getCellN_emptyBoard _ a c') hocc
  | initCfg cfg hr hc =>
    intro a a' c' _ _ _ hocc
    exact absurd (getCellN_emptyBoard _ a c') hocc
  | resetStep g p hg ih =>
    intro a a' c' _ _ _ hocc
    exact absurd (getCellN_emptyBoard _ a c') hocc
  | dropStep g col hg ih => exact drop_preserves_gravity g col ih

/-- C6 witness: the invariant at the freshly constructed default state. -/
theorem c6_witness : Gravity (Connect4Game.initGame none) :=
  c6_reachable_gravity (Connect4Game.initGame none) Reachable.initDefault

/-- C3: a placement that completes a 4-in-a-row for the mover and at the
same time fills the last empty cell of the board reports and records the
mover as winner with `is_draw = false`: the win test runs first and the
draw test only runs when there is no win (the full-board hypothesis is not
even needed for the conclusion, which is exactly the priority property). -/
theorem c3_win_priority_over_draw (g : Connect4Game) (col : Int) (r : Nat)
    (hw : g.winner = 0) (hd : g.is_draw = false)
    (hc0 : 0 ≤ col) (hc1 : col < g.cols)
    (htop : getCellN g.board 0 col.toNat = EMPTY)
    (hr : Connect4Game.findDropRow g col.toNat = some r)
    (hwin : Connect4Game.checkWinFrom (Connect4Game.placeAt g r col.toNat) r col.toNat
      g.current_player = true)
    (_hfull : Connect4Game.valid_moves (Connect4Game.placeAt g r col.toNat) = []) :
    (g.drop_piece col).1.winner = g.current_player ∧
    (g.drop_piece col).1.is_draw = false ∧
    (g.drop_piece col).2.winner = g.current_player ∧
    (g.drop_piece col).2.is_draw = false := by
  have he := Connect4Game.drop_piece_eq_success g col r hw hd hc0 hc1 htop hr
  rw [he, Connect4Game.dropSuccess_fst, Connect4Game.dropSuccess_snd_winner,
    Connect4Game.dropSuccess_snd_is_draw, Connect4Game.judge_winner,
    Connect4Game.judge_is_draw, if_pos hwin, if_pos hwin]
  exact ⟨rfl, by simp [Connect4Game.placeAt_is_draw, hd], rfl,
    by simp [Connect4Game.placeAt_is_draw, hd]⟩

/-- C3 witness: a 4×4 board where player one's drop into column 0 both
completes a vertical four and fills the last empty cell; the move is
scored as a win, not a draw. -/
theorem c3_witness :
    ((Connect4Game.mk ⟨4, 4⟩
        [[0, 2, 1, 2], [1, 1, 2, 1], [1, 2, 1, 2], [1, 1, 2, 1]] P1 none 0 false).drop_piece
        0).1.winner =
      (Connect4Game.mk ⟨4, 4⟩
        [[0, 2, 1, 2], [1, 1, 2, 1], [1, 2, 1, 2], [1, 1, 2, 1]] P1 none 0 false).current_player ∧
    ((Connect4Game.mk ⟨4, 4⟩
        [[0, 2, 1, 2], [1, 1, 2, 1], [1, 2, 1, 2], [1, 1, 2, 1]] P1 none 0 false).drop_piece
        0).1.is_draw = false ∧
    ((Connect4Game.mk ⟨4, 4⟩
        [[0, 2, 1, 2], [1, 1, 2, 1], [1, 2, 1, 2], [1, 1, 2, 1]] P1 none 0 false).drop_piece
        0).2.winner =
      (Connect4Game.mk ⟨4, 4⟩
        [[0, 2, 1, 2], [1, 1, 2, 1], [1, 2, 1, 2], [1, 1, 2, 1]] P1 none 0 false).current_player ∧
    ((Connect4Game.mk ⟨4, 4⟩
        [[0, 2, 1, 2], [1, 1, 2, 1], [1, 2, 1, 2], [1, 1, 2, 1]] P1 none 0 false).drop_piece
        0).2.is_draw = false :=
  c3_win_priority_over_draw
    (Connect4Game.mk ⟨4, 4⟩ [[0, 2, 1, 2], [1, 1, 2, 1], [1, 2, 1, 2], [1, 1, 2, 1]] P1 none 0 false)
    0 0 rfl rfl (by decide) (by decide) (by decide) (by decide) (by decide) (by decide)

/-- C2: after a successful placement at `(r, col)`, the winner is set to the
mover iff some direction's forward count plus backward count minus 1
reaches 4 — and that holds iff the placed cell lies on a straight line of
at least 4 consecutive cells of the mover's mark. -/
theorem c2_drop_winner_iff_line4 (g : Connect4Game) (col : Int) (r : Nat)
    (hw : g.winner = 0) (hd : g.is_draw = false)
    (hc0 : 0 ≤ col) (hc1 : col < g.cols)
    (htop : getCellN g.board 0 col.toNat = EMPTY)
    (hr : Connect4Game.findDropRow g col.toNat = some r)
    (hp : g.current_player = P1 ∨ g.current_player = P2) :
    ((g.drop_piece col).2.winner = g.current_player ↔
      ∃ d ∈ Connect4Game.dirs,
        4 ≤ (Connect4Game.countDir (Connect4Game.placeAt g r col.toNat) r col.toNat d.1 d.2
              g.current_player : Int) +
            (Connect4Game.countDir (Connect4Game.placeAt g r col.toNat) r col.toNat (-d.1) (-d.2)
              g.current_player : Int) - 1) ∧
    ((g.drop_piece col).2.winner = g.current_player ↔
      hasLine4Through (Connect4Game.placeAt g r col.toNat) r col.toNat g.current_player) := by
  have he := Connect4Game.drop_piece_eq_success g col r hw hd hc0 hc1 htop hr
  have hne : g.current_player ≠ 0 := by
    rcases hp with h | h <;> simp [h, P1, P2]
  have key : (g.drop_piece col).2.winner = g.current_player ↔
      Connect4Game.checkWinFrom (Connect4Game.placeAt g r col.toNat) r col.toNat
        g.current_player = true := by
    rw [he, Connect4Game.dropSuccess_snd_winner, Connect4Game.judge_winner,
      Connect4Game.placeAt_winner, hw]
    by_cases hcw : Connect4Game.checkWinFrom (Connect4Game.placeAt g r col.toNat) r col.toNat
        g.current_player = true
    · rw [if_pos hcw]
      exact iff_of_true rfl hcw
    · rw [if_neg hcw]
      exact ⟨fun h0 => absurd h0.symm hne, fun hq => absurd hq hcw⟩
  constructor
  · rw [key]
    unfold Connect4Game.checkWinFrom
    rw [List.any_eq_true]
    simp only [decide_eq_true_eq]
  · rw [key]
    exact checkWinFrom_iff_line4 _ _ _ _

/-- C2 witness: the first drop on the fresh default board (column 0, landing
row 5). -/
theorem c2_witness :
    (((Connect4Game.initGame none).drop_piece 0).2.winner =
        (Connect4Game.initGame none).current_player ↔
      ∃ d ∈ Connect4Game.dirs,
        4 ≤ (Connect4Game.countDir
              (Connect4Game.placeAt (Connect4Game.initGame none) 5 (0 : Int).toNat) 5 (0 : Int).toNat
              d.1 d.2 (Connect4Game.initGame none).current_player : Int) +
            (Connect4Game.countDir
              (Connect4Game.placeAt (Connect4Game.initGame none) 5 (0 : Int).toNat) 5 (0 : Int).toNat
              (-d.1) (-d.2) (Connect4Game.initGame none).current_player : Int) - 1) ∧
    (((Connect4Game.initGame none).drop_piece 0).2.winner =
        (Connect4Game.initGame none).current_player ↔
      hasLine4Through (Connect4Game.placeAt (Connect4Game.initGame none) 5 (0 : Int).toNat) 5
        (0 : Int).toNat (Connect4Game.initGame none).current_player) :=
  c2_drop_winner_iff_line4 (Connect4Game.initGame none) 0 5 rfl rfl (by decide) (by decide)
    (by decide) (by decide) (Or.inl rfl)
